import Mathlib

/-!
Verification of the `js-jose` JWE codec core (`src/dist/jose-jwe.js`).

The JavaScript source is shallowly embedded: byte buffers (`Uint8Array`,
`ArrayBuffer`, plain arrays) become `List Nat` with the invariant that
entries are below 256 where the runtime guarantees it; JS strings become
`String`; fallible operations (thrown assertions, rejected promises)
become `Option`/`Except`.  External collaborators (the WebCrypto
provider `crypto.subtle` and the `JSON.parse` builtin) are passed in as
explicit function parameters, mirroring the spec's `CryptoProvider`
abstraction (spec §6.4).
-/

namespace JoseJWE

/-! ## Binary utilities (`JoseJWE.Utils`) -/

/-- `JoseJWE.Utils.compare` (source lines 363-375): constant-time equality of
two byte arrays.  `ok |= arr1[i] ^ arr2[i]` over all indices, then `ok === 0`. -/
def utilsCompare (arr1 arr2 : List Nat) : Bool :=
  if arr1.length ≠ arr2.length then false
  else ((List.zipWith (fun x y => x ^^^ y) arr1 arr2).foldl (fun acc z => acc ||| z) 0) == 0

/-- `JoseJWE.Utils.stripLeadingZeros` (source lines 299-313): drop leading
`0x00` bytes. -/
def stripLeadingZeros : List Nat → List Nat
  | [] => []
  | x :: t => if x = 0 then stripLeadingZeros t else x :: t

/-- `JoseJWE.Utils.arrayFromInt32` (source lines 321-331): big-endian 4-byte
encoding of a number.  The source asserts `i == i|0` (32-bit signed range),
which for a natural number means `i < 2^31`; the bytes are the
platform-endian `Uint32Array` buffer reversed, i.e. big-endian. -/
def arrayFromInt32 (i : Nat) : Option (List Nat) :=
  if i < 2147483648 then
    some [i / 16777216 % 256, i / 65536 % 256, i / 256 % 256, i % 256]
  else none

/-- The ASCII/UTF-16 code units of a string, as produced by
`JoseJWE.Utils.arrayFromString` (source lines 271-275, `charCodeAt`). -/
def strBytes (s : String) : List Nat :=
  s.data.map Char.toNat

/-- Big-endian interpretation of a byte list (specification-side reading used
to state what the `AL` field of the MAC input encodes). -/
def beToNat (l : List Nat) : Nat :=
  l.foldl (fun acc b => acc * 256 + b) 0

/-! ## base64url (`JoseJWE.Utils.Base64Url`, source lines 404-450)

The source encodes through the browser builtin `btoa` (standard RFC 4648
alphabet with `=` padding) followed by the textual substitutions
`+ → -`, `/ → _` and stripping of trailing `=`; it decodes through `atob`
after the reverse substitutions, relying on `atob` accepting missing
padding.  `btoa`/`atob` are embedded concretely below. -/

/-- The standard base64 alphabet used by `btoa`/`atob`. -/
def b64Alphabet : List Char :=
  ['A','B','C','D','E','F','G','H','I','J','K','L','M','N','O','P','Q','R','S',
   'T','U','V','W','X','Y','Z','a','b','c','d','e','f','g','h','i','j','k','l',
   'm','n','o','p','q','r','s','t','u','v','w','x','y','z','0','1','2','3','4',
   '5','6','7','8','9','+','/']

/-- Character for a sextet value. -/
def stdChar (n : Nat) : Char :=
  b64Alphabet.getD n '?'

def stdIndexAux : List Char → Char → Nat → Option Nat
  | [], _, _ => none
  | x :: t, c, i => if x = c then some i else stdIndexAux t c (i + 1)

/-- Sextet value of an alphabet character (`none` for characters outside the
alphabet, which make `atob` throw). -/
def stdIndexOf (c : Char) : Option Nat :=
  stdIndexAux b64Alphabet c 0

/-- The URL-safe substitutions applied after `btoa`: every `+` becomes `-`
and every `/` becomes `_` (source lines 414-416). -/
def urlSwap (c : Char) : Char :=
  if c = '+' then '-' else if c = '/' then '_' else c

/-- The reverse substitutions applied before `atob`: every `-` becomes `+`
and every `_` becomes `/` (source line 444). -/
def swapBack (c : Char) : Char :=
  if c = '-' then '+' else if c = '_' then '/' else c

/-- `btoa` on a byte sequence: 3-byte groups become 4 alphabet characters,
a trailing group of 1 or 2 bytes is padded with `=`. -/
def btoaChars : List Nat → List Char
  | [] => []
  | [a] => [stdChar (a / 4), stdChar (a % 4 * 16), '=', '=']
  | [a, b] => [stdChar (a / 4), stdChar (a % 4 * 16 + b / 16), stdChar (b % 16 * 4), '=']
  | a :: b :: c :: t =>
      stdChar (a / 4) :: stdChar (a % 4 * 16 + b / 16) ::
      stdChar (b % 16 * 4 + c / 64) :: stdChar (c % 64) :: btoaChars t

/-- Strips the maximal trailing run of `=` (the final replace of
`Base64Url.encode`, source line 417; also used to model `atob`'s tolerance
of padding). -/
def stripTrailingEquals : List Char → List Char
  | [] => []
  | c :: t =>
      match stripTrailingEquals t with
      | [] => if c = '=' then [] else [c]
      | r => c :: r

/-- The byte-to-sextet expansion underlying `btoaChars` (proof bridge). -/
def bytesToSextets : List Nat → List Nat
  | [] => []
  | [a] => [a / 4, a % 4 * 16]
  | [a, b] => [a / 4, a % 4 * 16 + b / 16, b % 16 * 4]
  | a :: b :: c :: t =>
      a / 4 :: (a % 4 * 16 + b / 16) :: (b % 16 * 4 + c / 64) :: c % 64 :: bytesToSextets t

/-- The `=` padding `btoa` appends for a byte list of the given shape. -/
def b64Pad (l : List Nat) : List Char :=
  if l.length % 3 = 1 then ['=', '=']
  else if l.length % 3 = 2 then ['=']
  else []

/-- `atob`'s sextet recombination: groups of 4 sextets give 3 bytes; a final
group of 3 gives 2 bytes and a final group of 2 gives 1 byte, discarding the
trailing bits of the last character; a leftover single character is an error. -/
def sextetsToBytes : List Nat → Option (List Nat)
  | [] => some []
  | [_] => none
  | [a, b] => some [a * 4 + b / 16]
  | [a, b, c] => some [a * 4 + b / 16, b % 16 * 16 + c / 4]
  | a :: b :: c :: d :: t =>
      (sextetsToBytes t).map fun r =>
        (a * 4 + b / 16) :: (b % 16 * 16 + c / 4) :: (c % 4 * 64 + d) :: r

/-- Look up each character's sextet; fails on any character outside the
alphabet (`atob` throws `InvalidCharacterError`). -/
def charsToSextets : List Char → Option (List Nat)
  | [] => some []
  | c :: t =>
      match stdIndexOf c with
      | none => none
      | some n => (charsToSextets t).map (n :: ·)

/-- The character sequence produced by `Base64Url.encodeArray`
(source lines 426-433 composed with lines 412-418). -/
def encodeArrayChars (arr : List Nat) : List Char :=
  stripTrailingEquals ((btoaChars arr).map urlSwap)

/-- `JoseJWE.Utils.Base64Url.encodeArray`: `btoa` of the bytes-as-string,
then the URL-safe substitutions and padding strip.  `btoa` throws on a code
unit above 255, hence the guard. -/
def encodeArray (arr : List Nat) : Option String :=
  if arr.all (fun x => x < 256) then some (String.mk (encodeArrayChars arr)) else none

/-- `JoseJWE.Utils.Base64Url.decodeArray` (source lines 447-450): reverse
substitutions, `atob`, then `charCodeAt` on each output character. -/
def decodeArray (s : String) : Option (List Nat) :=
  (charsToSextets (stripTrailingEquals (s.data.map swapBack))).bind sextetsToBytes

/-- `JoseJWE.Utils.Base64Url.decode` (source lines 441-445): same as
`decodeArray` but returning the decoded bytes as a string. -/
def b64UrlDecodeStr (s : String) : Option String :=
  (decodeArray s).map fun l => String.mk (l.map Char.ofNat)

/-! ## Algorithm registry (`JoseJWE.getCryptoConfig`, source lines 65-135)

The JS configuration records are embedded field by field; absent fields
(JS `undefined`) are `none`.  In particular the source registry omits
`jwe_name` in the `A256CBC-HS512` and `A128GCM` records. -/

/-- A WebCrypto algorithm identifier object (`{name, hash?, length?}`). -/
structure AlgIdCfg where
  name : String
  hash : Option String := none
  length : Option Nat := none
deriving Repr, DecidableEq, Inhabited

/-- The `auth` sub-record of a content-encryption configuration: either the
AEAD form `{aead, tag_bytes}` or the composite form
`{key_bytes, id, truncated_bytes}`. -/
structure AuthCfg where
  aead : Bool := false
  tag_bytes : Option Nat := none
  key_bytes : Option Nat := none
  id : Option AlgIdCfg := none
  truncated_bytes : Option Nat := none
deriving Repr, DecidableEq, Inhabited

/-- A record returned by `JoseJWE.getCryptoConfig`. -/
structure CryptoConfig where
  jwe_name : Option String := none
  id : AlgIdCfg
  iv_bytes : Option Nat := none
  specific_cek_bytes : Option Nat := none
  auth : Option AuthCfg := none
deriving Repr, DecidableEq, Inhabited

/-- `JoseJWE.getCryptoConfig` (source lines 65-135).  `none` models the
`assert(false, "unsupported algorithm: " + alg)` throw of the default case.
The omissions of `jwe_name` for `A256CBC-HS512` (line 102) and `A128GCM`
(line 113) are reproduced from the source. -/
def getCryptoConfig (alg : String) : Option CryptoConfig :=
  if alg = "RSA-OAEP" then
    some { jwe_name := some "RSA-OAEP", id := { name := "RSA-OAEP", hash := some "SHA-1" } }
  else if alg = "RSA-OAEP-256" then
    some { jwe_name := some "RSA-OAEP-256", id := { name := "RSA-OAEP", hash := some "SHA-256" } }
  else if alg = "A128KW" then
    some { jwe_name := some "A128KW", id := { name := "AES-KW", length := some 128 } }
  else if alg = "A256KW" then
    some { jwe_name := some "A256KW", id := { name := "AES-KW", length := some 256 } }
  else if alg = "A128CBC-HS256" then
    some { jwe_name := some "A128CBC-HS256",
           id := { name := "AES-CBC", length := some 128 },
           iv_bytes := some 16,
           specific_cek_bytes := some 32,
           auth := some { key_bytes := some 16,
                          id := some { name := "HMAC", hash := some "SHA-256" },
                          truncated_bytes := some 16 } }
  else if alg = "A256CBC-HS512" then
    some { id := { name := "AES-CBC", length := some 256 },
           iv_bytes := some 16,
           specific_cek_bytes := some 64,
           auth := some { key_bytes := some 32,
                          id := some { name := "HMAC", hash := some "SHA-512" },
                          truncated_bytes := some 32 } }
  else if alg = "A128GCM" then
    some { id := { name := "AES-GCM", length := some 128 },
           iv_bytes := some 12,
           auth := some { aead := true, tag_bytes := some 16 } }
  else if alg = "A256GCM" then
    some { jwe_name := some "A256GCM",
           id := { name := "AES-GCM", length := some 256 },
           iv_bytes := some 12,
           auth := some { aead := true, tag_bytes := some 16 } }
  else none

/-! ## JSON values

A minimal JSON value type, enough for the parsed protected header and for
the JWK records handled by `convertRsaKey`.  `JSON.parse` itself is a JS
builtin and is abstracted as a function parameter where needed. -/

inductive JVal where
  | jstr : String → JVal
  | jnum : Nat → JVal
  | jbool : Bool → JVal
  | jnull : JVal
  | jarr : List JVal → JVal
  | jobj : List (String × JVal) → JVal
deriving Inhabited

/-- JS truthiness of a possibly-absent value (`undefined`, `null`, `0`,
`""` and `false` are falsy). -/
def jtruthy : Option JVal → Bool
  | none => false
  | some (.jstr s) => !(s == "")
  | some (.jnum n) => !(n == 0)
  | some (.jbool b) => b
  | some .jnull => false
  | some (.jarr _) => true
  | some (.jobj _) => true

/-- Property access `v[p]` on a parsed JSON value (`undefined` when `v` is
not an object or lacks the property). -/
def getProp (v : JVal) (p : String) : Option JVal :=
  match v with
  | .jobj l => l.lookup p
  | _ => none

/-- `getCryptoConfig` applied to a header member: the `switch` in the source
compares with string literals, so any non-string value falls through to the
`unsupported algorithm` assertion. -/
def getCryptoConfigOf : Option JVal → Option CryptoConfig
  | some (.jstr s) => getCryptoConfig s
  | _ => none

/-! ## RSA JWK normalization (`JoseJWE.Utils.convertRsaKey`, lines 220-263) -/

/-- Value of a hex digit. -/
def hexDigitVal (c : Char) : Nat :=
  if '0' ≤ c ∧ c ≤ '9' then c.toNat - '0'.toNat
  else if 'a' ≤ c ∧ c ≤ 'f' then c.toNat - 'a'.toNat + 10
  else if 'A' ≤ c ∧ c ≤ 'F' then c.toNat - 'A'.toNat + 10
  else 0

def isHexDigit (c : Char) : Bool :=
  (('0' ≤ c ∧ c ≤ '9') ∨ ('a' ≤ c ∧ c ≤ 'f') ∨ ('A' ≤ c ∧ c ≤ 'F') : Prop)

def colonHexAux : List Char → Bool
  | [a, b] => isHexDigit a && isHexDigit b
  | a :: b :: ':' :: rest => isHexDigit a && isHexDigit b && colonHexAux rest
  | _ => false

/-- The colon-hex test of source line 253: two-hex-digit groups separated by
colons, at least two groups. -/
def isColonHex : List Char → Bool
  | a :: b :: ':' :: rest => isHexDigit a && isHexDigit b && colonHexAux rest
  | _ => false

/-- `parseInt(g, 16)` on a (regex-validated) two-digit hex group. -/
def hexStrVal (s : String) : Nat :=
  s.data.foldl (fun acc c => acc * 16 + hexDigitVal c) 0

def splitOnCharAux (sep : Char) : List Char → List Char → List String
  | [], acc => [String.mk acc.reverse]
  | c :: t, acc =>
      if c = sep then String.mk acc.reverse :: splitOnCharAux sep t []
      else splitOnCharAux sep t (c :: acc)

/-- JS `String.prototype.split` with a single-character separator. -/
def splitOnChar (sep : Char) (s : String) : List String :=
  splitOnCharAux sep s.data []

/-- The per-parameter conversion applied when `p == "e"` (source lines
249-252): only a *number* is converted (via `arrayFromInt32`,
`stripLeadingZeros` and `Base64Url.encodeArray`); any other value — including
a colon-hex string — is left untouched, because the subsequent branches are
chained with `else if`. -/
def convertRsaParamE (v : JVal) : Option JVal :=
  match v with
  | .jnum n =>
      (arrayFromInt32 n).bind fun arr =>
        (encodeArray (stripLeadingZeros arr)).map .jstr
  | _ => some v

/-- The per-parameter conversion for parameters other than `e` (source lines
253-258): colon-hex strings are decoded and re-encoded base64url; other
strings pass through; non-strings hit the assertion. -/
def convertRsaParamOther (v : JVal) : Option JVal :=
  match v with
  | .jstr s =>
      if isColonHex s.data then
        (encodeArray (stripLeadingZeros ((splitOnChar ':' s).map hexStrVal))).map .jstr
      else some (.jstr s)
  | _ => none

/-- `JoseJWE.Utils.convertRsaKey` (source lines 220-263): check presence of
the expected parameters, validate `kty`/`alg`, then convert each parameter.
`none` models a thrown assertion.  The result lists `kty` and `alg` first,
then the parameters in order, as the JS object is populated. -/
def convertRsaKey (rsa_key : List (String × JVal)) (parameters : List String) :
    Option (List (String × JVal)) :=
  let missing := parameters.filter fun p => (rsa_key.lookup p).isNone
  if missing ≠ [] then none
  else if !(match rsa_key.lookup "kty" with
            | none => true
            | some (.jstr s) => s == "RSA"
            | some _ => false) then none
  else if !(match rsa_key.lookup "alg" with
            | none => true
            | some (.jstr s) => s == "RSA-OAEP"
            | some _ => false) then none
  else
    (parameters.mapM fun p =>
      match rsa_key.lookup p with
      | none => none
      | some v =>
          if p = "e" then (convertRsaParamE v).map fun v2 => (p, v2)
          else (convertRsaParamOther v).map fun v2 => (p, v2)).map
      fun l => ("kty", JVal.jstr "RSA") :: ("alg", JVal.jstr "RSA-OAEP") :: l

/-! ## CryptoProvider abstraction and keys

Key handles produced by a raw-format `crypto.subtle.importKey` call are
modelled as their raw bytes together with the algorithm object and the
usage list passed at the call (spec sections 3 and 6.4). -/

structure ImportedKey where
  bytes : List Nat
  alg : AlgIdCfg
  usages : List String
deriving Repr, DecidableEq, Inhabited

/-- The primitive operations consumed from `crypto.subtle` during `decrypt`
(spec §6.4).  `unwrap` yields the raw unwrapped CEK bytes; `sign` is HMAC;
`decryptPrim` is the non-authenticated AES-CBC decryption; `aeadDecrypt`
is authenticated AES-GCM decryption of `ciphertext ‖ tag`. -/
structure CryptoProvider where
  unwrap : List Nat → Option (List Nat)
  sign : AlgIdCfg → List Nat → List Nat → List Nat
  decryptPrim : AlgIdCfg → List Nat → ImportedKey → List Nat → Option (List Nat)
  aeadDecrypt : AlgIdCfg → List Nat → List Nat → Nat → List Nat → List Nat → Option (List Nat)

/-- `slice(0, end)` with a possibly-`undefined` end (`undefined` keeps the
whole buffer). -/
def takeOpt (n : Option Nat) (l : List Nat) : List Nat :=
  match n with
  | some k => l.take k
  | none => l

/-- `JoseJWE.MacThenEncrypt.splitKey` (source lines 781-801): export the raw
CEK, reject unless `byteLength * 8 == config.id.length + config.auth.key_bytes * 8`,
then import the first `key_bytes` bytes as the HMAC key with usage `sign`
and the rest under `config.id` with the caller's purpose.  A missing
`id.length`, `auth.key_bytes` or `auth.id` makes the JS comparison involve
`NaN` (always unequal) or the import throw, hence `none`. -/
def splitKey (config : CryptoConfig) (cekBytes : List Nat) (purpose : List String) :
    Option (ImportedKey × ImportedKey) :=
  match config.auth with
  | none => none
  | some auth =>
      match config.id.length, auth.key_bytes, auth.id with
      | some len, some kb, some aid =>
          if cekBytes.length * 8 ≠ len + kb * 8 then none
          else some ({ bytes := cekBytes.take kb, alg := aid, usages := ["sign"] },
                     { bytes := cekBytes.drop kb, alg := config.id, usages := purpose })
      | _, _, _ => none

/-- `JoseJWE.MacThenEncrypt.truncatedMac` (source lines 813-823): build
`AL` as an 8-byte buffer whose last 4 bytes are `arrayFromInt32(aad.length * 8)`,
HMAC `aad ‖ iv ‖ cipher_text ‖ AL` under `config.auth.id`, and keep the
first `truncated_bytes` bytes. -/
def truncatedMac (config : CryptoConfig) (prov : CryptoProvider) (macKey : ImportedKey)
    (aad iv cipherText : List Nat) : Option (List Nat) :=
  match config.auth with
  | none => none
  | some auth =>
      match auth.id with
      | none => none
      | some aid =>
          match arrayFromInt32 (aad.length * 8) with
          | none => none
          | some al =>
              let alFull := List.replicate 4 0 ++ al
              let buf := aad ++ iv ++ cipherText ++ alFull
              some (takeOpt auth.truncated_bytes (prov.sign aid macKey.bytes buf))

/-- `JoseJWE.prototype.decryptCiphertext` (source lines 684-730).  The IV
length check comes first; the AEAD path passes `ciphertext ‖ tag` to the
authenticated primitive; the composite path splits the CEK, recomputes the
truncated MAC, compares it against the received tag with `utilsCompare` and
only then invokes AES-CBC decryption. -/
def decryptCiphertext (config : CryptoConfig) (prov : CryptoProvider) (cek : List Nat)
    (aad iv cipherText tag : List Nat) : Except String (List Nat) :=
  if some iv.length ≠ config.iv_bytes then .error "decryptCiphertext: invalid IV"
  else
    match config.auth with
    | none => .error "TypeError: auth is undefined"
    | some auth =>
        if auth.aead then
          match prov.aeadDecrypt config.id iv aad (auth.tag_bytes.getD 0 * 8) cek
              (cipherText ++ tag) with
          | some pt => .ok pt
          | none => .error "OperationError: aead decrypt failed"
        else
          match splitKey config cek ["decrypt"] with
          | none => .error "encryptPlainText: incorrect cek length"
          | some (macKey, encKey) =>
              match truncatedMac config prov macKey aad iv cipherText with
              | none => .error "arrayFromInt32: out of range"
              | some mac =>
                  if utilsCompare mac tag then
                    match prov.decryptPrim config.id iv encKey cipherText with
                    | some pt => .ok pt
                    | none => .error "OperationError: cbc decrypt failed"
                  else .error "decryptCiphertext: MAC failed."

/-! ## Compact codec (`JoseJWE.prototype.decrypt`, source lines 641-677) -/

/-- The mutable algorithm selection of a `JoseJWE` instance
(`this.key_encryption`, `this.content_encryption`). -/
structure JoseState where
  key_encryption : CryptoConfig
  content_encryption : CryptoConfig
deriving Repr, DecidableEq, Inhabited

def splitDotAux : List Char → List Char → List String
  | [], acc => [String.mk acc.reverse]
  | c :: t, acc =>
      if c = '.' then String.mk acc.reverse :: splitDotAux t []
      else splitDotAux t (c :: acc)

/-- JS `cipher_text.split(".")` (source line 643). -/
def splitOnDot (s : String) : List String :=
  splitDotAux s.data []

/-- The tail of `decrypt` after the header has been processed: base64url-
decode segments 1-4, unwrap the CEK and run `decryptCiphertext` with the
raw ASCII bytes of segment 0 as AAD (source lines 665-676).  A decode
failure is `atob`'s `InvalidCharacterError`; an unwrap failure is the
provider's `OperationError`.  Sequencing note: the promise-based source
runs the synchronous IV-length check of `decryptCiphertext` before the
asynchronous CEK unwrap can reject; this sequential model surfaces a
provider unwrap failure first.  The two orders are distinguishable only on
inputs that fail in both ways at once, which no property below involves. -/
def decryptSegments (st : JoseState) (prov : CryptoProvider)
    (p0 p1 p2 p3 p4 : String) : Except String (List Nat) :=
  match decodeArray p1, decodeArray p2, decodeArray p3, decodeArray p4 with
  | some ecek, some iv, some ct, some tag =>
      match prov.unwrap ecek with
      | none => .error "OperationError: unwrapKey failed"
      | some cek => decryptCiphertext st.content_encryption prov cek (strBytes p0) iv ct tag
  | _, _, _, _ => .error "InvalidCharacterError"

/-- `JoseJWE.prototype.decrypt` (source lines 641-677), with the instance
state threaded explicitly.  Split into five segments; decode and JSON-parse
the header; reject on missing `alg`/`enc` or present `crit`; the recognized
`alg`/`enc` overwrite the instance configuration (via
`setKeyEncryptionAlgorithm` / `setContentEncryptionAlgorithm`, source lines
44-54) and the new state is kept whatever happens afterwards.  `jsonParse`
abstracts the `JSON.parse` builtin. -/
def decrypt (st : JoseState) (prov : CryptoProvider) (jsonParse : String → Option JVal)
    (input : String) : Except String (List Nat) × JoseState :=
  let parts := splitOnDot input
  if parts.length ≠ 5 then (.error "decrypt: invalid input", st)
  else
    match b64UrlDecodeStr (parts.getD 0 "") with
    | none => (.error "InvalidCharacterError", st)
    | some headerStr =>
        match jsonParse headerStr with
        | none => (.error "SyntaxError: JSON.parse", st)
        | some header =>
            if jtruthy (getProp header "alg") then
              match getCryptoConfigOf (getProp header "alg") with
              | none => (.error "unsupported algorithm", st)
              | some kcfg =>
                  let st1 : JoseState := { st with key_encryption := kcfg }
                  if jtruthy (getProp header "enc") then
                    match getCryptoConfigOf (getProp header "enc") with
                    | none => (.error "unsupported algorithm", st1)
                    | some ccfg =>
                        let st2 : JoseState := { st1 with content_encryption := ccfg }
                        if jtruthy (getProp header "crit") then
                          (.error "decrypt: crit is not supported", st2)
                        else
                          (decryptSegments st2 prov (parts.getD 0 "") (parts.getD 1 "")
                            (parts.getD 2 "") (parts.getD 3 "") (parts.getD 4 ""), st2)
                  else (.error "decrypt: missing enc", st1)
            else (.error "decrypt: missing alg", st)

/-- The `JoseJWE()` constructor state (source lines 26-29). -/
def joseInit : JoseState :=
  { key_encryption := (getCryptoConfig "RSA-OAEP").getD default,
    content_encryption := (getCryptoConfig "A256GCM").getD default }

/-! ## Error taxonomy (spec §7)

Classification of the failure messages surfaced by the embedded functions
into the specification's error kinds: wrong segment count, invalid
base64url, bad header JSON, `crit`, missing `alg`/`enc` and IV mismatch are
`MalformedInput`; a composite MAC mismatch or AEAD tag failure is
`IntegrityFailure`; provider-level unwrap/decrypt errors are
`CryptoPrimitiveFailure`; violated length relationships are
`InternalInvariant`. -/

inductive ErrorKind where
  | malformedInput
  | unsupportedAlgorithm
  | malformedKey
  | integrityFailure
  | cryptoPrimitiveFailure
  | internalInvariant
deriving Repr, DecidableEq

def errorKind (msg : String) : ErrorKind :=
  if msg = "decrypt: invalid input" then .malformedInput
  else if msg = "InvalidCharacterError" then .malformedInput
  else if msg = "SyntaxError: JSON.parse" then .malformedInput
  else if msg = "decrypt: missing alg" then .malformedInput
  else if msg = "decrypt: missing enc" then .malformedInput
  else if msg = "decrypt: crit is not supported" then .malformedInput
  else if msg = "decryptCiphertext: invalid IV" then .malformedInput
  else if msg = "decryptCiphertext: MAC failed." then .integrityFailure
  else if msg = "OperationError: aead decrypt failed" then .integrityFailure
  else if msg = "OperationError: cbc decrypt failed" then .cryptoPrimitiveFailure
  else if msg = "OperationError: unwrapKey failed" then .cryptoPrimitiveFailure
  else if msg = "encryptPlainText: incorrect cek length" then .internalInvariant
  else if msg = "arrayFromInt32: out of range" then .internalInvariant
  else if msg = "TypeError: auth is undefined" then .internalInvariant
  else .unsupportedAlgorithm

/-! ## Concrete instances used to evaluate the embedding

A deterministic stand-in provider and small concrete JWE inputs.  The
provider follows the WebCrypto shape (HMAC output of 32 bytes as for
SHA-256) but with fixed outputs, which suffices because the properties
evaluated on these inputs concern only the codec's routing, comparisons and
serialization, not the cryptographic primitives themselves. -/

def provStub : CryptoProvider :=
  { unwrap := fun _ => some (List.range 32),
    sign := fun _ _ _ => List.range 32,
    decryptPrim := fun _ _ _ _ => some [42],
    aeadDecrypt := fun _ _ _ _ _ _ => none }

def headerJson1 : String := "\x7b\"alg\":\"A128KW\",\"enc\":\"A128CBC-HS256\"\x7d"

def headerJson2 : String :=
  "\x7b\"alg\":\"A128KW\",\"enc\":\"A128CBC-HS256\",\"crit\":[\"exp\"]\x7d"

/-- A `JSON.parse` stand-in defined on the two concrete headers used below. -/
def jsonParseStub (s : String) : Option JVal :=
  if s = headerJson1 then
    some (.jobj [("alg", .jstr "A128KW"), ("enc", .jstr "A128CBC-HS256")])
  else if s = headerJson2 then
    some (.jobj [("alg", .jstr "A128KW"), ("enc", .jstr "A128CBC-HS256"),
                 ("crit", .jarr [.jstr "exp"])])
  else none

/-- base64url segment of a byte list. -/
def seg (l : List Nat) : String := String.mk (encodeArrayChars l)

def hdrSeg1 : String := seg (strBytes headerJson1)

def hdrSeg2 : String := seg (strBytes headerJson2)

def cekSeg : String := seg [1]

def ivSeg : String := seg (List.replicate 16 0)

def ctSeg : String := seg [9, 9, 9]

def tagBytes0 : List Nat := List.range 16

def tagSeg : String := seg tagBytes0

/-- `tagSeg` with its final character changed from `w` to `x`: a one-byte
change of the tag segment whose decoded bytes are unchanged, because the
final base64 character's low bits are discarded by the decoder. -/
def tagSegX : String := String.mk (tagSeg.data.dropLast ++ ['x'])

def jweInput1 : String :=
  hdrSeg1 ++ "." ++ cekSeg ++ "." ++ ivSeg ++ "." ++ ctSeg ++ "." ++ tagSeg

def jweInput2 : String :=
  hdrSeg1 ++ "." ++ cekSeg ++ "." ++ ivSeg ++ "." ++ ctSeg ++ "." ++ tagSegX

/-- A five-segment input whose fifth (tag) segment is empty. -/
def jweInput3 : String :=
  hdrSeg1 ++ "." ++ cekSeg ++ "." ++ ivSeg ++ "." ++ ctSeg ++ "."

def jweInputCrit : String :=
  hdrSeg2 ++ "." ++ cekSeg ++ "." ++ ivSeg ++ "." ++ ctSeg ++ "." ++ tagSeg

def cfg128 : CryptoConfig := (getCryptoConfig "A128CBC-HS256").getD default

def cfg256 : CryptoConfig := (getCryptoConfig "A256CBC-HS512").getD default

def cfgA128KW : CryptoConfig := (getCryptoConfig "A128KW").getD default

def stAfter : JoseState :=
  { key_encryption := cfgA128KW, content_encryption := cfg128 }

def cek0 : List Nat := List.range 32

def iv0 : List Nat := List.replicate 16 0

/-- Inputs for evaluating `convertRsaKey` on the three shapes of `e`. -/
def rsaKeyNum : List (String × JVal) := [("n", .jstr "sXch"), ("e", .jnum 65537)]

def rsaKeyB64 : List (String × JVal) := [("n", .jstr "sXch"), ("e", .jstr "AQAB")]

def rsaKeyHex : List (String × JVal) := [("n", .jstr "sXch"), ("e", .jstr "01:00:01")]

end JoseJWE

deriving instance DecidableEq for Except

namespace JoseJWE

/-! ## Helper lemmas -/

theorem nat_lor_eq_zero_iff (x y : Nat) : x ||| y = 0 ↔ x = 0 ∧ y = 0 := by
  constructor
  · intro h
    constructor
    · apply Nat.eq_of_testBit_eq
      intro i
      have := congrArg (fun z => Nat.testBit z i) h
      simp [Nat.testBit_lor] at this
      simp [this.1]
    · apply Nat.eq_of_testBit_eq
      intro i
      have := congrArg (fun z => Nat.testBit z i) h
      simp [Nat.testBit_lor] at this
      simp [this.2]
  · rintro ⟨rfl, rfl⟩
    rfl

theorem foldl_lor_eq_zero (l : List Nat) : ∀ acc : Nat,
    l.foldl (fun a z => a ||| z) acc = 0 ↔ acc = 0 ∧ ∀ x ∈ l, x = 0 := by
  induction l with
  | nil => intro acc; simp
  | cons x t ih =>
      intro acc
      simp only [List.foldl_cons, ih, nat_lor_eq_zero_iff, List.mem_cons]
      constructor
      · rintro ⟨⟨h1, h2⟩, h3⟩
        exact ⟨h1, fun y hy => hy.elim (fun he => he ▸ h2) (h3 y)⟩
      · rintro ⟨h1, h2⟩
        exact ⟨⟨h1, h2 x (Or.inl rfl)⟩, fun y hy => h2 y (Or.inr hy)⟩

theorem zipWith_xor_all_zero (a : List Nat) : ∀ b : List Nat, a.length = b.length →
    ((∀ x ∈ List.zipWith (fun x y => x ^^^ y) a b, x = 0) ↔ a = b) := by
  induction a with
  | nil =>
      intro b hb
      cases b with
      | nil => simp
      | cons y t => simp at hb
  | cons x t ih =>
      intro b hb
      cases b with
      | nil => simp at hb
      | cons y u =>
          simp only [List.zipWith_cons_cons, List.mem_cons, List.cons.injEq]
          simp only [List.length_cons, Nat.add_right_cancel_iff] at hb
          constructor
          · intro h
            refine ⟨Nat.xor_eq_zero.mp (h _ (Or.inl rfl)), ?_⟩
            exact (ih u hb).mp fun z hz => h z (Or.inr hz)
          · rintro ⟨rfl, rfl⟩
            intro z hz
            rcases hz with h | h
            · simp [h]
            · exact ((ih t hb).mpr rfl) z h

/-- The constant-time compare returns `true` exactly on equal byte lists. -/
theorem utilsCompare_eq_true_iff (a b : List Nat) : utilsCompare a b = true ↔ a = b := by
  unfold utilsCompare
  by_cases h : a.length = b.length
  · rw [if_neg (by simp [h])]
    simp only [beq_iff_eq, foldl_lor_eq_zero, true_and]
    rw [zipWith_xor_all_zero a b h]
  · rw [if_pos h]
    simp only [Bool.false_eq_true, false_iff]
    intro he
    exact h (he ▸ rfl)

/-! ## C9: constant-time compare -/

/-- C9.  `JoseJWE.Utils.compare` returns true iff the two byte sequences are
equal (same length, same byte at every index); when the lengths are equal it
is literally computed by folding bitwise-or of the bytewise xors over all
indices and testing the accumulator against zero, with no short-circuit. -/
theorem compare_constant_time (a b : List Nat) :
    (utilsCompare a b = true ↔ a = b) ∧
    (a.length = b.length →
      utilsCompare a b =
        (((List.zipWith (fun x y => x ^^^ y) a b).foldl (fun acc z => acc ||| z) 0) == 0)) := by
  refine ⟨utilsCompare_eq_true_iff a b, fun h => ?_⟩
  unfold utilsCompare
  rw [if_neg (by simp [h])]

/-- Witness for C9 at concrete inputs. -/
theorem compare_constant_time_witness :
    utilsCompare [3, 200, 7] [3, 200, 7] =
      (((List.zipWith (fun x y => x ^^^ y) [3, 200, 7] [3, 200, 7]).foldl
        (fun acc z => acc ||| z) 0) == 0) :=
  (compare_constant_time [3, 200, 7] [3, 200, 7]).2 rfl

/-! ## base64url lemmas -/

theorem stdIndexOf_stdChar : ∀ n, n < 64 → stdIndexOf (stdChar n) = some n := by decide

theorem swapBack_urlSwap_stdChar : ∀ n, n < 64 →
    swapBack (urlSwap (stdChar n)) = stdChar n := by decide

theorem stdChar_props : ∀ n, n < 64 →
    stdChar n ≠ '=' ∧ urlSwap (stdChar n) ≠ '=' ∧
    urlSwap (stdChar n) ≠ '+' ∧ urlSwap (stdChar n) ≠ '/' := by decide

theorem bytesToSextets_lt : ∀ (l : List Nat), (∀ y ∈ l, y < 256) →
    ∀ x ∈ bytesToSextets l, x < 64
  | [], _ => by simp [bytesToSextets]
  | [a], h => by
      have ha : a < 256 := h a (by simp)
      simp only [bytesToSextets, List.mem_cons, List.not_mem_nil, or_false]
      rintro x (rfl | rfl) <;> omega
  | [a, b], h => by
      have ha : a < 256 := h a (by simp)
      have hb : b < 256 := h b (by simp)
      simp only [bytesToSextets, List.mem_cons, List.not_mem_nil, or_false]
      rintro x (rfl | rfl | rfl) <;> omega
  | a :: b :: c :: t, h => by
      have ha : a < 256 := h a (by simp)
      have hb : b < 256 := h b (by simp)
      have hc : c < 256 := h c (by simp)
      have ih := bytesToSextets_lt t fun y hy => h y (by simp [hy])
      simp only [bytesToSextets, List.mem_cons]
      rintro x (rfl | rfl | rfl | rfl | hx)
      · omega
      · omega
      · omega
      · omega
      · exact ih x hx

theorem b64Pad_cons3 (a b c : Nat) (t : List Nat) : b64Pad (a :: b :: c :: t) = b64Pad t := by
  unfold b64Pad
  simp only [List.length_cons,
    show (t.length + 1 + 1 + 1) % 3 = t.length % 3 by omega]

theorem btoaChars_eq : ∀ (l : List Nat),
    btoaChars l = (bytesToSextets l).map stdChar ++ b64Pad l
  | [] => rfl
  | [a] => rfl
  | [a, b] => rfl
  | a :: b :: c :: t => by
      have ih := btoaChars_eq t
      simp only [btoaChars, bytesToSextets, List.map_cons, List.cons_append, ih,
        b64Pad_cons3]

theorem b64Pad_all_eq (l : List Nat) : ∀ c ∈ b64Pad l, c = '=' := by
  unfold b64Pad
  split
  · decide
  · split
    · decide
    · decide

theorem stripTrailingEquals_all_eq : ∀ (r : List Char), (∀ c ∈ r, c = '=') →
    stripTrailingEquals r = []
  | [], _ => rfl
  | c :: t, h => by
      have ht := stripTrailingEquals_all_eq t fun x hx => h x (by simp [hx])
      have hc : c = '=' := h c (by simp)
      simp [stripTrailingEquals, ht, hc]

theorem stripTrailingEquals_append : ∀ (l r : List Char), (∀ c ∈ r, c = '=') →
    stripTrailingEquals (l ++ r) = stripTrailingEquals l
  | [], r, h => by simpa [stripTrailingEquals] using stripTrailingEquals_all_eq r h
  | c :: t, r, h => by
      have ih := stripTrailingEquals_append t r h
      have expand : stripTrailingEquals (c :: t ++ r) =
          match stripTrailingEquals (t ++ r) with
          | [] => if c = '=' then [] else [c]
          | r => c :: r := rfl
      have expand2 : stripTrailingEquals (c :: t) =
          match stripTrailingEquals t with
          | [] => if c = '=' then [] else [c]
          | r => c :: r := rfl
      rw [expand, ih, expand2]

theorem stripTrailingEquals_of_ne : ∀ (l : List Char), (∀ c ∈ l, c ≠ '=') →
    stripTrailingEquals l = l
  | [], _ => rfl
  | c :: t, h => by
      have ih := stripTrailingEquals_of_ne t fun x hx => h x (by simp [hx])
      have hc : c ≠ '=' := h c (by simp)
      cases t with
      | nil => simp [stripTrailingEquals, hc]
      | cons d u =>
          have expand : stripTrailingEquals (c :: d :: u) =
              match stripTrailingEquals (d :: u) with
              | [] => if c = '=' then [] else [c]
              | r => c :: r := rfl
          rw [expand, ih]

theorem encodeArrayChars_eq (l : List Nat) (h : ∀ y ∈ l, y < 256) :
    encodeArrayChars l = (bytesToSextets l).map fun n => urlSwap (stdChar n) := by
  unfold encodeArrayChars
  rw [btoaChars_eq l, List.map_append, List.map_map]
  have hpad : ∀ c ∈ (b64Pad l).map urlSwap, c = '=' := by
    intro c hc
    simp only [List.mem_map] at hc
    obtain ⟨d, hd, rfl⟩ := hc
    have hd' := b64Pad_all_eq l d hd
    subst hd'
    rfl
  rw [stripTrailingEquals_append _ _ hpad]
  rw [stripTrailingEquals_of_ne]
  · simp [Function.comp]
  · intro c hc
    simp only [List.mem_map, Function.comp] at hc
    obtain ⟨n, hn, rfl⟩ := hc
    exact (stdChar_props n (bytesToSextets_lt l h n hn)).2.1

theorem charsToSextets_map_stdChar : ∀ (s : List Nat), (∀ x ∈ s, x < 64) →
    charsToSextets (s.map stdChar) = some s
  | [], _ => rfl
  | n :: t, h => by
      have ih := charsToSextets_map_stdChar t fun x hx => h x (by simp [hx])
      have hn : n < 64 := h n (by simp)
      simp [charsToSextets, stdIndexOf_stdChar n hn, ih]

theorem sextetsToBytes_bytesToSextets : ∀ (l : List Nat), (∀ y ∈ l, y < 256) →
    sextetsToBytes (bytesToSextets l) = some l
  | [], _ => rfl
  | [a], h => by
      have ha : a < 256 := h a (by simp)
      simp only [bytesToSextets, sextetsToBytes]
      rw [show a / 4 * 4 + a % 4 * 16 / 16 = a by omega]
  | [a, b], h => by
      have ha : a < 256 := h a (by simp)
      have hb : b < 256 := h b (by simp)
      simp only [bytesToSextets, sextetsToBytes]
      rw [show a / 4 * 4 + (a % 4 * 16 + b / 16) / 16 = a by omega,
          show (a % 4 * 16 + b / 16) % 16 * 16 + b % 16 * 4 / 4 = b by omega]
  | a :: b :: c :: t, h => by
      have ha : a < 256 := h a (by simp)
      have hb : b < 256 := h b (by simp)
      have hc : c < 256 := h c (by simp)
      have ih := sextetsToBytes_bytesToSextets t fun y hy => h y (by simp [hy])
      simp only [bytesToSextets, sextetsToBytes, ih,
        show a / 4 * 4 + (a % 4 * 16 + b / 16) / 16 = a by omega,
        show (a % 4 * 16 + b / 16) % 16 * 16 + (b % 16 * 4 + c / 64) / 4 = b by omega,
        show (b % 16 * 4 + c / 64) % 4 * 64 + c % 64 = c by omega]
      rfl

theorem decodeArray_encodeArrayChars (l : List Nat) (h : ∀ y ∈ l, y < 256) :
    decodeArray (String.mk (encodeArrayChars l)) = some l := by
  show (charsToSextets (stripTrailingEquals ((encodeArrayChars l).map swapBack))).bind
      sextetsToBytes = some l
  rw [encodeArrayChars_eq l h, List.map_map]
  have hmap : (bytesToSextets l).map (swapBack ∘ fun n => urlSwap (stdChar n)) =
      (bytesToSextets l).map stdChar := by
    apply List.map_congr_left
    intro n hn
    exact swapBack_urlSwap_stdChar n (bytesToSextets_lt l h n hn)
  rw [hmap, stripTrailingEquals_of_ne, charsToSextets_map_stdChar _ (bytesToSextets_lt l h)]
  · simp [sextetsToBytes_bytesToSextets l h]
  · intro c hc
    simp only [List.mem_map] at hc
    obtain ⟨n, hn, rfl⟩ := hc
    exact (stdChar_props n (bytesToSextets_lt l h n hn)).1

/-! ## C8: base64url round trip -/

/-- C8.  For every byte sequence, `Base64Url.decodeArray` inverts
`Base64Url.encodeArray`, and the encoder's output contains none of the
characters `=`, `+`, `/`. -/
theorem base64url_roundtrip (b : List Nat) (h : ∀ x ∈ b, x < 256) :
    ∃ s : String, encodeArray b = some s ∧ decodeArray s = some b ∧
      ∀ c ∈ s.data, c ≠ '=' ∧ c ≠ '+' ∧ c ≠ '/' := by
  refine ⟨String.mk (encodeArrayChars b), ?_, decodeArray_encodeArrayChars b h, ?_⟩
  · have hall : b.all (fun x => x < 256) = true := by
      rw [List.all_eq_true]
      intro x hx
      exact decide_eq_true (h x hx)
    unfold encodeArray
    rw [if_pos hall]
  · intro c hc
    rw [show (String.mk (encodeArrayChars b)).data = encodeArrayChars b from rfl,
        encodeArrayChars_eq b h] at hc
    simp only [List.mem_map] at hc
    obtain ⟨n, hn, rfl⟩ := hc
    have hp := stdChar_props n (bytesToSextets_lt b h n hn)
    exact ⟨hp.2.1, hp.2.2.1, hp.2.2.2⟩

/-- Witness for C8 at a concrete byte sequence. -/
theorem base64url_roundtrip_witness :
    ∃ s : String, encodeArray [0, 1, 77, 254, 255] = some s ∧
      decodeArray s = some [0, 1, 77, 254, 255] ∧
      ∀ c ∈ s.data, c ≠ '=' ∧ c ≠ '+' ∧ c ≠ '/' :=
  base64url_roundtrip [0, 1, 77, 254, 255] (by decide)

/-! ## MAC pipeline lemmas -/

theorem getD_set_self : ∀ (l : List Nat) (i a : Nat), i < l.length →
    (l.set i a).getD i 0 = a
  | [], _, _, h => by simp at h
  | _ :: _, 0, _, _ => rfl
  | _ :: t, i + 1, a, h => by
      simp only [List.set_cons_succ, List.getD_cons_succ]
      exact getD_set_self t i a (by simpa using h)

/-- Overwriting a byte with itself xor a nonzero value changes the list. -/
theorem set_xor_ne (l : List Nat) (i d : Nat) (hi : i < l.length) (hd : 0 < d) :
    l.set i ((l.getD i 0) ^^^ d) ≠ l := by
  intro he
  have h1 : (l.set i ((l.getD i 0) ^^^ d)).getD i 0 = (l.getD i 0) ^^^ d :=
    getD_set_self l i _ hi
  rw [he] at h1
  have h2 : (l.getD i 0) ^^^ (l.getD i 0) = (l.getD i 0) ^^^ ((l.getD i 0) ^^^ d) :=
    congrArg (fun z => (l.getD i 0) ^^^ z) h1
  rw [← Nat.xor_assoc, Nat.xor_self, Nat.zero_xor] at h2
  omega

/-- Unfolding of `truncatedMac` when the configuration is composite and the
AAD bit length is in range: the HMAC input is exactly
`aad ‖ iv ‖ ciphertext ‖ AL` with `AL` four zero bytes followed by the
big-endian 32-bit encoding of the AAD bit length. -/
theorem truncatedMac_eq (config : CryptoConfig) (auth : AuthCfg) (aid : AlgIdCfg)
    (prov : CryptoProvider) (macKey : ImportedKey) (aad iv ct : List Nat)
    (hauth : config.auth = some auth) (haid : auth.id = some aid)
    (hbound : aad.length * 8 < 2147483648) :
    truncatedMac config prov macKey aad iv ct =
      some (takeOpt auth.truncated_bytes (prov.sign aid macKey.bytes
        (aad ++ iv ++ ct ++ (List.replicate 4 0 ++
          [aad.length * 8 / 16777216 % 256, aad.length * 8 / 65536 % 256,
           aad.length * 8 / 256 % 256, aad.length * 8 % 256])))) := by
  simp only [truncatedMac, arrayFromInt32, hauth, haid, hbound, if_true]

/-- `truncatedMac` depends on the provider only through `sign`. -/
theorem truncatedMac_sign_congr (config : CryptoConfig) (p1 p2 : CryptoProvider)
    (macKey : ImportedKey) (aad iv ct : List Nat) (h : p2.sign = p1.sign) :
    truncatedMac config p2 macKey aad iv ct = truncatedMac config p1 macKey aad iv ct := by
  unfold truncatedMac
  rw [h]

/-! ## C5: composite MAC input and truncation -/

/-- C5.  For a composite configuration, the bytes handed to HMAC are exactly
`aad ‖ iv ‖ ciphertext ‖ AL` where `AL` is 8 bytes: four zero bytes followed
by the big-endian 32-bit encoding of `8 * aad.length`; the returned tag is
the first `truncated_bytes` bytes of the HMAC output. -/
theorem truncatedMac_spec (config : CryptoConfig) (auth : AuthCfg) (aid : AlgIdCfg)
    (t : Nat) (prov : CryptoProvider) (macKey : ImportedKey) (aad iv ct : List Nat)
    (hauth : config.auth = some auth) (haid : auth.id = some aid)
    (ht : auth.truncated_bytes = some t)
    (hbound : aad.length * 8 < 2147483648) :
    ∃ al : List Nat,
      truncatedMac config prov macKey aad iv ct =
        some ((prov.sign aid macKey.bytes (aad ++ iv ++ ct ++ al)).take t) ∧
      al.length = 8 ∧ al.take 4 = [0, 0, 0, 0] ∧
      beToNat (al.drop 4) = 8 * aad.length := by
  refine ⟨List.replicate 4 0 ++
    [aad.length * 8 / 16777216 % 256, aad.length * 8 / 65536 % 256,
     aad.length * 8 / 256 % 256, aad.length * 8 % 256], ?_, by simp, by simp, ?_⟩
  · rw [truncatedMac_eq config auth aid prov macKey aad iv ct hauth haid hbound, ht]
    rfl
  · show beToNat [aad.length * 8 / 16777216 % 256, aad.length * 8 / 65536 % 256,
      aad.length * 8 / 256 % 256, aad.length * 8 % 256] = 8 * aad.length
    simp only [beToNat, List.foldl]
    omega

/-- Witness for C5 at a concrete composite configuration and AAD. -/
theorem truncatedMac_spec_witness :
    ∃ al : List Nat,
      truncatedMac cfg128 provStub ⟨List.range 16, { name := "HMAC" }, ["sign"]⟩
          [65, 66] iv0 [9, 9, 9] =
        some ((provStub.sign { name := "HMAC", hash := some "SHA-256" }
          (List.range 16) ([65, 66] ++ iv0 ++ [9, 9, 9] ++ al)).take 16) ∧
      al.length = 8 ∧ al.take 4 = [0, 0, 0, 0] ∧
      beToNat (al.drop 4) = 8 * [65, 66].length :=
  truncatedMac_spec cfg128
    { key_bytes := some 16, id := some { name := "HMAC", hash := some "SHA-256" },
      truncated_bytes := some 16 }
    { name := "HMAC", hash := some "SHA-256" } 16 provStub
    ⟨List.range 16, { name := "HMAC" }, ["sign"]⟩ [65, 66] iv0 [9, 9, 9]
    rfl rfl rfl (by decide)

/-! ## C6: the CEK split -/

/-- C6.  For both composite suites, `splitKey` fails exactly when the raw CEK
length differs from `cek_bytes` (which equals `mac.key_bytes + key_bits/8`),
and otherwise the first `mac.key_bytes` bytes become the HMAC MAC key with
usage `sign` and the remaining bytes the AES-CBC ENC key, in that order. -/
theorem splitKey_spec (cek : List Nat) (purpose : List String) :
    (cek.length ≠ 32 → splitKey cfg128 cek purpose = none) ∧
    (cek.length = 32 → splitKey cfg128 cek purpose =
      some ({ bytes := cek.take 16, alg := { name := "HMAC", hash := some "SHA-256" },
              usages := ["sign"] },
            { bytes := cek.drop 16, alg := cfg128.id, usages := purpose })) ∧
    (cek.length ≠ 64 → splitKey cfg256 cek purpose = none) ∧
    (cek.length = 64 → splitKey cfg256 cek purpose =
      some ({ bytes := cek.take 32, alg := { name := "HMAC", hash := some "SHA-512" },
              usages := ["sign"] },
            { bytes := cek.drop 32, alg := cfg256.id, usages := purpose })) ∧
    cfg128.specific_cek_bytes = some 32 ∧
    cfg128.auth.bind AuthCfg.key_bytes = some 16 ∧
    cfg128.id.length = some 128 ∧ 32 = 16 + 128 / 8 ∧
    cfg256.specific_cek_bytes = some 64 ∧
    cfg256.auth.bind AuthCfg.key_bytes = some 32 ∧
    cfg256.id.length = some 256 ∧ 64 = 32 + 256 / 8 := by
  refine ⟨?_, ?_, ?_, ?_, rfl, rfl, rfl, by omega, rfl, rfl, rfl, by omega⟩
  · intro h
    show (if cek.length * 8 ≠ 128 + 16 * 8 then none else
      some (({ bytes := cek.take 16,
               alg := { name := "HMAC", hash := some "SHA-256" }, usages := ["sign"] } : ImportedKey),
            ({ bytes := cek.drop 16, alg := cfg128.id, usages := purpose } : ImportedKey))) = none
    rw [if_pos (by omega)]
  · intro h
    show (if cek.length * 8 ≠ 128 + 16 * 8 then none else
      some (({ bytes := cek.take 16,
               alg := { name := "HMAC", hash := some "SHA-256" }, usages := ["sign"] } : ImportedKey),
            ({ bytes := cek.drop 16, alg := cfg128.id, usages := purpose } : ImportedKey))) = _
    rw [if_neg (by omega)]
  · intro h
    show (if cek.length * 8 ≠ 256 + 32 * 8 then none else
      some (({ bytes := cek.take 32,
               alg := { name := "HMAC", hash := some "SHA-512" }, usages := ["sign"] } : ImportedKey),
            ({ bytes := cek.drop 32, alg := cfg256.id, usages := purpose } : ImportedKey))) = none
    rw [if_pos (by omega)]
  · intro h
    show (if cek.length * 8 ≠ 256 + 32 * 8 then none else
      some (({ bytes := cek.take 32,
               alg := { name := "HMAC", hash := some "SHA-512" }, usages := ["sign"] } : ImportedKey),
            ({ bytes := cek.drop 32, alg := cfg256.id, usages := purpose } : ImportedKey))) = _
    rw [if_neg (by omega)]

/-- Witness for C6: a 32-byte CEK splits for `A128CBC-HS256`, a 31-byte one
is rejected. -/
theorem splitKey_spec_witness :
    splitKey cfg128 (List.range 32) ["decrypt"] =
      some ({ bytes := (List.range 32).take 16,
              alg := { name := "HMAC", hash := some "SHA-256" }, usages := ["sign"] },
            { bytes := (List.range 32).drop 16, alg := cfg128.id, usages := ["decrypt"] }) ∧
    splitKey cfg128 (List.range 31) ["decrypt"] = none :=
  ⟨(splitKey_spec (List.range 32) ["decrypt"]).2.1 (by decide),
   (splitKey_spec (List.range 31) ["decrypt"]).1 (by decide)⟩

theorem utilsCompare_len_ne (a b : List Nat) (h : a.length ≠ b.length) :
    utilsCompare a b = false := by
  unfold utilsCompare
  rw [if_pos h]

theorem takeOpt_length (t : Nat) (l : List Nat) (h : t ≤ l.length) :
    (takeOpt (some t) l).length = t := by
  simp only [takeOpt]
  rw [List.length_take]
  exact Nat.min_eq_left h

/-! ## C7: IV and tag length validation during decryption -/

/-- C7.  A decoded IV of the wrong length makes `decryptCiphertext` fail
with the `MalformedInput`-class error `invalid IV`; but a composite tag of
the wrong length is never explicitly length-checked — it fails the
constant-time MAC comparison instead, so the operation fails with
`IntegrityFailure` (`MAC failed.`), not `MalformedInput`, though still
without returning plaintext. -/
theorem decryptCiphertext_length_checks (config : CryptoConfig) (prov : CryptoProvider)
    (cek aad iv ct tag : List Nat) :
    (some iv.length ≠ config.iv_bytes →
      decryptCiphertext config prov cek aad iv ct tag =
        .error "decryptCiphertext: invalid IV" ∧
      errorKind "decryptCiphertext: invalid IV" = .malformedInput) ∧
    (∀ auth aid t macKey encKey,
      config.auth = some auth → auth.aead = false →
      config.iv_bytes = some iv.length →
      auth.id = some aid → auth.truncated_bytes = some t →
      splitKey config cek ["decrypt"] = some (macKey, encKey) →
      aad.length * 8 < 2147483648 →
      (∀ a k d2, t ≤ (prov.sign a k d2).length) →
      tag.length ≠ t →
      decryptCiphertext config prov cek aad iv ct tag =
        .error "decryptCiphertext: MAC failed." ∧
      errorKind "decryptCiphertext: MAC failed." = .integrityFailure) := by
  constructor
  · intro h
    refine ⟨?_, rfl⟩
    unfold decryptCiphertext
    rw [if_pos h]
  · intro auth aid t macKey encKey hauth hae hiv haid ht hsplit hbound hsig htag
    refine ⟨?_, rfl⟩
    have hmac := truncatedMac_eq config auth aid prov macKey aad iv ct hauth haid hbound
    rw [ht] at hmac
    obtain ⟨mac, hmacEq, hmlen⟩ :
        ∃ m, truncatedMac config prov macKey aad iv ct = some m ∧ m.length = t :=
      ⟨_, hmac, takeOpt_length t _ (hsig _ _ _)⟩
    have hcmp := utilsCompare_len_ne mac tag (by omega)
    unfold decryptCiphertext
    rw [if_neg (by simp [hiv]), hauth]
    simp only [hae, hsplit, hmacEq, hcmp, Bool.false_eq_true, if_false]

/-- Witness for C7 (both conjuncts) at a concrete composite configuration. -/
theorem decryptCiphertext_length_checks_witness :
    decryptCiphertext cfg128 provStub cek0 [65] [0] [9, 9, 9] (List.range 16) =
      .error "decryptCiphertext: invalid IV" ∧
    decryptCiphertext cfg128 provStub cek0 [65] iv0 [9, 9, 9] (List.range 15) =
      .error "decryptCiphertext: MAC failed." :=
  ⟨((decryptCiphertext_length_checks cfg128 provStub cek0 [65] [0] [9, 9, 9]
      (List.range 16)).1 (by decide)).1,
   ((decryptCiphertext_length_checks cfg128 provStub cek0 [65] iv0 [9, 9, 9]
      (List.range 15)).2
      { key_bytes := some 16, id := some { name := "HMAC", hash := some "SHA-256" },
        truncated_bytes := some 16 }
      { name := "HMAC", hash := some "SHA-256" } 16
      ⟨cek0.take 16, { name := "HMAC", hash := some "SHA-256" }, ["sign"]⟩
      ⟨cek0.drop 16, cfg128.id, ["decrypt"]⟩
      rfl rfl rfl rfl rfl (by decide) (by decide)
      (fun _ _ _ => (by decide : (16 : Nat) ≤ (List.range 32).length)) (by decide)).1⟩

/-- Counterexample to C7 as stated: a composite tag of the wrong length
(15 instead of `truncated_bytes = 16`) makes the operation fail with the
`IntegrityFailure` error `MAC failed.`, not with `MalformedInput`. -/
theorem decryptCiphertext_tag_length_cex :
    cfg128.auth.map AuthCfg.truncated_bytes = some (some 16) ∧
    (List.range 15).length = 15 ∧
    decryptCiphertext cfg128 provStub cek0 [65] iv0 [9, 9, 9] (List.range 15) =
      .error "decryptCiphertext: MAC failed." ∧
    errorKind "decryptCiphertext: MAC failed." ≠ ErrorKind.malformedInput := by
  refine ⟨rfl, rfl, by decide, by decide⟩

/-! ## C1: MAC verified before AES-CBC decryption; tag flips -/

/-- C1 (amended).  In the composite path `decryptCiphertext` recomputes the
truncated MAC and compares it with the received tag using the constant-time
compare; on mismatch it rejects with the `IntegrityFailure` error
`MAC failed.` and the result does not depend on the AES-CBC decryption
primitive (so no plaintext can be produced); flipping any byte of the
**decoded** tag of a successful decryption forces this failure.  (At the
serialization level a byte flip inside the base64url tag *segment* need not
change the decoded tag — see the counterexample — which is why the claim is
amended to the decoded tag.) -/
theorem decryptCiphertext_mac_first (config : CryptoConfig) (auth : AuthCfg)
    (prov : CryptoProvider) (cek aad iv ct tag : List Nat)
    (hauth : config.auth = some auth) (hae : auth.aead = false) :
    (∀ macKey encKey mac,
      config.iv_bytes = some iv.length →
      splitKey config cek ["decrypt"] = some (macKey, encKey) →
      truncatedMac config prov macKey aad iv ct = some mac →
      utilsCompare mac tag = false →
      ∀ prov2 : CryptoProvider, prov2.sign = prov.sign →
        decryptCiphertext config prov2 cek aad iv ct tag =
          .error "decryptCiphertext: MAC failed." ∧
        errorKind "decryptCiphertext: MAC failed." = .integrityFailure) ∧
    (∀ pt, decryptCiphertext config prov cek aad iv ct tag = .ok pt →
      ∀ i d, i < tag.length → 0 < d →
        decryptCiphertext config prov cek aad iv ct (tag.set i ((tag.getD i 0) ^^^ d)) =
          .error "decryptCiphertext: MAC failed.") := by
  constructor
  · intro macKey encKey mac hiv hsplit hmac hcmp prov2 hsign
    refine ⟨?_, rfl⟩
    have hmac2 : truncatedMac config prov2 macKey aad iv ct = some mac := by
      rw [truncatedMac_sign_congr config prov prov2 macKey aad iv ct hsign]
      exact hmac
    unfold decryptCiphertext
    rw [if_neg (by simp [hiv]), hauth]
    simp only [hae, hsplit, hmac2, hcmp, Bool.false_eq_true, if_false]
  · intro pt hok i d hi hd
    by_cases hiv : some iv.length ≠ config.iv_bytes
    · exfalso
      unfold decryptCiphertext at hok
      rw [if_pos hiv] at hok
      exact absurd hok (by simp)
    · unfold decryptCiphertext at hok ⊢
      rw [if_neg hiv, hauth] at hok ⊢
      simp only [hae] at hok ⊢
      cases hsplit : splitKey config cek ["decrypt"] with
      | none =>
          simp only [hsplit] at hok
          exact absurd hok (by simp)
      | some pair =>
          obtain ⟨macKey, encKey⟩ := pair
          simp only [hsplit] at hok ⊢
          cases hmac : truncatedMac config prov macKey aad iv ct with
          | none =>
              simp only [hmac] at hok
              exact absurd hok (by simp)
          | some mac =>
              simp only [hmac] at hok ⊢
              cases hcmp : utilsCompare mac tag with
              | false =>
                  simp only [hcmp, Bool.false_eq_true, if_false] at hok
                  exact absurd hok (by simp)
              | true =>
                  have heq : mac = tag := (utilsCompare_eq_true_iff mac tag).mp hcmp
                  have hne : tag.set i ((tag.getD i 0) ^^^ d) ≠ mac := by
                    rw [heq]
                    exact set_xor_ne tag i d hi hd
                  have hcmp2 : utilsCompare mac (tag.set i ((tag.getD i 0) ^^^ d)) = false :=
                    Bool.eq_false_iff.mpr fun hv =>
                      hne ((utilsCompare_eq_true_iff _ _).mp hv).symm
                  simp only [hcmp2, Bool.false_eq_true, if_false]

/-- Witness for C1: a successful composite decryption, then a flip of byte 0
of the decoded tag forces the `MAC failed.` rejection. -/
theorem decryptCiphertext_mac_first_witness :
    decryptCiphertext cfg128 provStub cek0 [65] iv0 [9, 9, 9]
        ((List.range 16).set 0 (((List.range 16).getD 0 0) ^^^ 1)) =
      .error "decryptCiphertext: MAC failed." :=
  (decryptCiphertext_mac_first cfg128
    { key_bytes := some 16, id := some { name := "HMAC", hash := some "SHA-256" },
      truncated_bytes := some 16 }
    provStub cek0 [65] iv0 [9, 9, 9] (List.range 16) rfl rfl).2
    [42] (by decide) 0 1 (by decide) (by decide)

/-- Counterexample to C1's final clause as stated: a valid composite JWE
whose base64url tag segment has its last byte changed (`w` to `x`) still
decrypts to the same plaintext, because the decoder discards the trailing
bits of the final base64 character, so the decoded tag is unchanged. -/
theorem decrypt_tag_segment_flip_cex :
    (decrypt joseInit provStub jsonParseStub jweInput1).1 = .ok [42] ∧
    (decrypt joseInit provStub jsonParseStub jweInput2).1 = .ok [42] ∧
    tagSegX ≠ tagSeg ∧ tagSegX.data.length = tagSeg.data.length ∧
    tagSegX.data.dropLast = tagSeg.data.dropLast ∧
    jweInput1 = hdrSeg1 ++ "." ++ cekSeg ++ "." ++ ivSeg ++ "." ++ ctSeg ++ "." ++ tagSeg ∧
    jweInput2 = hdrSeg1 ++ "." ++ cekSeg ++ "." ++ ivSeg ++ "." ++ ctSeg ++ "." ++ tagSegX := by
  refine ⟨by decide, by decide, by decide, by decide, by decide, rfl, rfl⟩

/-! ## C3: segment count validation -/

/-- C3 (amended).  If splitting the input on `.` does not yield exactly five
segments, `decrypt` rejects with the `MalformedInput` error
`decrypt: invalid input` (in particular for 4 or 6 segments) and leaves the
state untouched; segments are **not** checked for emptiness — see the
counterexample, where a five-segment input with an empty tag segment passes
this check and fails later with an `IntegrityFailure`. -/
theorem decrypt_segment_count (st : JoseState) (prov : CryptoProvider)
    (jsonParse : String → Option JVal) (input : String)
    (h : (splitOnDot input).length ≠ 5) :
    decrypt st prov jsonParse input = (.error "decrypt: invalid input", st) ∧
    errorKind "decrypt: invalid input" = .malformedInput := by
  refine ⟨?_, rfl⟩
  simp only [decrypt]
  rw [if_pos h]

/-- Witness for C3 at a four-segment input. -/
theorem decrypt_segment_count_witness :
    decrypt joseInit provStub jsonParseStub "a.b.c.d" =
      (.error "decrypt: invalid input", joseInit) ∧
    errorKind "decrypt: invalid input" = ErrorKind.malformedInput :=
  decrypt_segment_count joseInit provStub jsonParseStub "a.b.c.d" (by decide)

/-- Counterexample to C3 as stated: a five-segment input whose fifth (tag)
segment is empty is not rejected with `MalformedInput`; it passes the
segment check and fails the MAC comparison, an `IntegrityFailure`. -/
theorem decrypt_empty_segment_cex :
    (splitOnDot jweInput3).length = 5 ∧
    (splitOnDot jweInput3).getD 4 "" = "" ∧
    (decrypt joseInit provStub jsonParseStub jweInput3).1 =
      .error "decryptCiphertext: MAC failed." ∧
    errorKind "decryptCiphertext: MAC failed." ≠ ErrorKind.malformedInput := by
  refine ⟨by decide, by decide, by decide, by decide⟩

/-! ## C10: decrypt overwrites the instance's algorithm selection -/

/-- C10.  Whenever the five-segment input's header decodes and parses to an
object carrying recognized `alg` and `enc`, the instance's selected
configurations are overwritten with the header's algorithms, and the final
state is exactly those two configurations no matter how the rest of the
operation goes — including when `decrypt` subsequently fails (`crit`
present, undecodable segments, unwrap failure, MAC failure); nothing
restores the previous configuration. -/
theorem decrypt_header_mutates_state (st : JoseState) (prov : CryptoProvider)
    (jsonParse : String → Option JVal) (input : String) (hs : String) (header : JVal)
    (a e : String) (ka ca : CryptoConfig)
    (h5 : (splitOnDot input).length = 5)
    (hdec : b64UrlDecodeStr ((splitOnDot input).getD 0 "") = some hs)
    (hjson : jsonParse hs = some header)
    (halg : getProp header "alg" = some (.jstr a))
    (henc : getProp header "enc" = some (.jstr e))
    (hka : getCryptoConfig a = some ka)
    (hca : getCryptoConfig e = some ca) :
    (decrypt st prov jsonParse input).2 =
      { key_encryption := ka, content_encryption := ca } := by
  have ha0 : a ≠ "" := by
    intro h
    subst h
    simp [getCryptoConfig] at hka
  have he0 : e ≠ "" := by
    intro h
    subst h
    simp [getCryptoConfig] at hca
  have hta : jtruthy (some (JVal.jstr a)) = true := by simp [jtruthy, ha0]
  have hte : jtruthy (some (JVal.jstr e)) = true := by simp [jtruthy, he0]
  simp only [decrypt]
  rw [if_neg (by simp [h5]), hdec]
  simp only [hjson, halg, henc, hta, hte, getCryptoConfigOf, hka, hca, if_true]
  cases hcrit : jtruthy (getProp header "crit") <;> simp [hcrit]

/-- Witness for C10: decrypting a JWE whose header carries `crit` fails, yet
the instance's configurations remain overwritten with the header's
algorithms. -/
theorem decrypt_header_mutates_state_witness :
    (decrypt joseInit provStub jsonParseStub jweInputCrit).2 = stAfter := by
  have h := decrypt_header_mutates_state joseInit provStub jsonParseStub jweInputCrit
    headerJson2
    (.jobj [("alg", .jstr "A128KW"), ("enc", .jstr "A128CBC-HS256"),
            ("crit", .jarr [.jstr "exp"])])
    "A128KW" "A128CBC-HS256" cfgA128KW cfg128
    (by decide) (by decide) rfl rfl rfl rfl rfl
  exact h

/-! ## C2: registry `jwe_name` fields -/

/-- C2.  Evaluation of the registry: six of the eight recognized identifiers
carry `jwe_name` equal to the identifier, but the `A256CBC-HS512` and
`A128GCM` records have no `jwe_name` at all (the claimed property fails for
them; the encoder's header would carry an undefined `enc`). -/
theorem getCryptoConfig_jwe_name_registry :
    (getCryptoConfig "A256CBC-HS512").map CryptoConfig.jwe_name = some none ∧
    (getCryptoConfig "A128GCM").map CryptoConfig.jwe_name = some none ∧
    (getCryptoConfig "RSA-OAEP").map CryptoConfig.jwe_name = some (some "RSA-OAEP") ∧
    (getCryptoConfig "RSA-OAEP-256").map CryptoConfig.jwe_name = some (some "RSA-OAEP-256") ∧
    (getCryptoConfig "A128KW").map CryptoConfig.jwe_name = some (some "A128KW") ∧
    (getCryptoConfig "A256KW").map CryptoConfig.jwe_name = some (some "A256KW") ∧
    (getCryptoConfig "A128CBC-HS256").map CryptoConfig.jwe_name = some (some "A128CBC-HS256") ∧
    (getCryptoConfig "A256GCM").map CryptoConfig.jwe_name = some (some "A256GCM") := by
  refine ⟨rfl, rfl, rfl, rfl, rfl, rfl, rfl, rfl⟩

/-! ## C4: the three shapes of the RSA public exponent -/

/-- C4.  Evaluation of `convertRsaKey` on three otherwise-identical keys:
the integer `65537` and the base64url string `"AQAB"` both normalize `e` to
`"AQAB"`, but the colon-hex string `"01:00:01"` is left untouched (the
colon-hex branch is unreachable for the parameter `e`), so the three shapes
do **not** normalize to the same JWK value. -/
theorem convertRsaKey_e_shapes :
    convertRsaKey rsaKeyNum ["n", "e"] =
      some [("kty", .jstr "RSA"), ("alg", .jstr "RSA-OAEP"),
            ("n", .jstr "sXch"), ("e", .jstr "AQAB")] ∧
    convertRsaKey rsaKeyB64 ["n", "e"] =
      some [("kty", .jstr "RSA"), ("alg", .jstr "RSA-OAEP"),
            ("n", .jstr "sXch"), ("e", .jstr "AQAB")] ∧
    convertRsaKey rsaKeyHex ["n", "e"] =
      some [("kty", .jstr "RSA"), ("alg", .jstr "RSA-OAEP"),
            ("n", .jstr "sXch"), ("e", .jstr "01:00:01")] ∧
    "01:00:01" ≠ "AQAB" := by
  refine ⟨rfl, rfl, rfl, by decide⟩

end JoseJWE
